import Mathlib

/-
  Verification of the PiRate HID-keyboard encoder and serial relay.

  The definitions below are a shallow embedding of the two core modules:
  * pirate/lib/keyboard.py      (class Keyboard: keystroke parsing, HID
    report building, wpm pacing, device writes)
  * pirate/lib/serial_console.py (class SerialConsole: the stdio() relay
    loop with marker detection, detach/EOF handling and teardown)

  Bytes are modelled as Nat, Python byte strings as List Nat, Python str
  as String/List Char, the keymap dict as a function String → Option
  (Nat × Nat) holding the already-hex-parsed (modifier, keycode) pair,
  and Python floats (the wpm delay) as exact rationals.
-/

/- ===================== Keyboard (pirate/lib/keyboard.py) ============== -/

/-- Errors raised by Keyboard._process_keystroke: KeymapError carries the
offending key name, HIDReportError signals a full report. -/
inductive KbError where
  | unknownKey (key : String)
  | reportOverflow
deriving DecidableEq

/-- The loaded keymap: key name to (modifier, keycode), the two hex byte
strings of the layout JSON already converted by int(x, 16). -/
def Keymap := String → Option (Nat × Nat)

/-- The slot scan of _process_keystroke: for i in range(2, 8), put the
keycode into the first slot holding 0x00; None means the for-else raise. -/
def findSlot (report : List Nat) (keycode : Nat) : List Nat → Option (List Nat)
  | [] => none
  | i :: is => if report.getD i 1 = 0 then some (report.set i keycode) else findSlot report keycode is

/-- The indices range(2, 8) of the slot scan. -/
def slotRange : List Nat := [2, 3, 4, 5, 6, 7]

/-- One iteration of the key loop in _process_keystroke: look the key up,
OR the modifier into byte 0, place the keycode in the first empty slot. -/
def processKey (km : Keymap) (report : List Nat) (key : String) : Except KbError (List Nat) :=
  match km key with
  | none => .error (.unknownKey key)
  | some (modifier, keycode) =>
    let report1 := report.set 0 (report.getD 0 0 ||| modifier)
    match findSlot report1 keycode slotRange with
    | some report2 => .ok report2
    | none => .error .reportOverflow

/-- The key loop of _process_keystroke, threading the 8-byte report. -/
def buildReport (km : Keymap) : List Nat → List String → Except KbError (List Nat)
  | report, [] => .ok report
  | report, key :: keys =>
    match processKey km report key with
    | .error e => .error e
    | .ok report1 => buildReport km report1 keys

/-- Python str.split on the single character separator of the combo
(keystroke.split of the plus sign). -/
def splitPlus : List Char → List (List Char)
  | [] => [[]]
  | c :: cs =>
    if c = '+' then [] :: splitPlus cs
    else
      match splitPlus cs with
      | g :: gs => (c :: g) :: gs
      | [] => [[c]]

/-- keystroke.split into the individual key names. -/
def splitOnPlus (g : String) : List String := (splitPlus g.data).map String.mk

/-- _process_keystroke without the device write: builds the 8-byte HID
report for one keystroke group. -/
def processKeystroke (km : Keymap) (g : String) : Except KbError (List Nat) :=
  buildReport km (List.replicate 8 0) (splitOnPlus g)

/-- The all-zero 8-byte release frame written after every report. -/
def zeroReport : List Nat := List.replicate 8 0

/-- _write_report: the sequence of frames written to the device for one
report (data frame then release frame), or nothing in dev mode. -/
def writeReport (disableKeyboard : Bool) (report : List Nat) : List (List Nat) :=
  if disableKeyboard then [] else [report, zeroReport]

/-- The send loop over the parsed keystroke groups: the device frames
written, paired with the first encoder error (which aborts the call). -/
def runGroups (km : Keymap) (disableKeyboard : Bool) : List String → List (List Nat) × Option KbError
  | [] => ([], none)
  | g :: gs =>
    match processKeystroke km g with
    | .error e => ([], some e)
    | .ok report =>
      let rest := runGroups km disableKeyboard gs
      (writeReport disableKeyboard report ++ rest.1, rest.2)

/-- The lazy tail of the escape pattern: consume characters up to the
first closing brace, failing on a newline (the dot of the regex does not
match a newline) or at end of input.  Returns the combo body and the
remaining text after the brace. -/
def findBrace : List Char → Option (List Char × List Char)
  | [] => none
  | c :: cs =>
    if c = '\x7d' then some ([], cs)
    else if c = '\n' then none
    else
      match findBrace cs with
      | some (g, r) => some (c :: g, r)
      | none => none

/-- The literal opening of the escape pattern of send. -/
def keyOpen : List Char := "\x7bKEY:".data

/-- The parse loop of send, fuelled by the input length: at each position,
a match of the escape pattern emits its combo (spaces stripped) as one
keystroke group; otherwise the character is emitted as its own group. -/
def scanAux : Nat → List Char → List String
  | 0, _ => []
  | _ + 1, [] => []
  | fuel + 1, c :: cs =>
    if keyOpen.isPrefixOf (c :: cs) then
      match findBrace ((c :: cs).drop 5) with
      | some (g, rest) => String.mk (g.filter fun ch => !(ch == ' ')) :: scanAux fuel rest
      | none => String.singleton c :: scanAux fuel cs
    else String.singleton c :: scanAux fuel cs

/-- The keystroke groups send extracts from the input text. -/
def scanKeystrokes (l : List Char) : List String := scanAux l.length l

/-- send without pacing and logging: parse the text into keystroke groups
and process them in order, collecting the device frames written and the
error that aborted the call, if any. -/
def sendRun (km : Keymap) (disableKeyboard : Bool) (text : String) : List (List Nat) × Option KbError :=
  runGroups km disableKeyboard (scanKeystrokes text.data)

/-- _wpm_to_delay: clamp the wpm into the range 10 to 1000, then
60 / (wpm * 5) seconds, as an exact rational. -/
def wpmToDelay (wpm : Int) : Rat :=
  let w : Int := if wpm < 10 then 10 else if wpm > 1000 then 1000 else wpm
  60 / ((w : Rat) * 5)

/-- The wpm selection of send: the call-time override if given, else the
instance default. -/
def effectiveWpm (instWpm : Int) (callWpm : Option Int) : Int :=
  match callWpm with
  | none => instWpm
  | some w => w

/-- The inter-keystroke delay send computes and sleeps after every group. -/
def sendDelay (instWpm : Int) (callWpm : Option Int) : Rat :=
  wpmToDelay (effectiveWpm instWpm callWpm)

/-- Modelled from the spec words for comparison: delay in seconds is
60 / (wpm * 5) with the wpm clamped to the inclusive range 10 to 1000. -/
def clampedDelaySpec (wpm : Int) : Rat :=
  60 / (((max 10 (min wpm 1000) : Int) : Rat) * 5)

/-- Modelled from the spec words for comparison: report predicted for a
combo by the claim, with byte 0 the OR of the modifiers and the keycodes
occupying bytes 2..(1+n) in the order the keys were listed. -/
def claimedComboReport (mods keycodes : List Nat) : List Nat :=
  (mods.foldl (fun a b => a ||| b) 0) :: 0 :: (keycodes ++ List.replicate (6 - keycodes.length) 0)

/-- A concrete keymap in the shape of the us layout: letters carry no
modifier and a nonzero keycode, WIN is a pure modifier with keycode 0x00. -/
def kmUS : Keymap := fun k =>
  if k = "a" then some (0, 4)
  else if k = "b" then some (0, 5)
  else if k = "c" then some (0, 6)
  else if k = "q" then some (0, 20)
  else if k = "w" then some (0, 26)
  else if k = "e" then some (0, 8)
  else if k = "t" then some (0, 23)
  else if k = "y" then some (0, 28)
  else if k = "u" then some (0, 24)
  else if k = "r" then some (0, 21)
  else if k = "WIN" then some (8, 0)
  else none

/-- A keymap holding only the key a, as in the unknown-key test. -/
def kmA : Keymap := fun k => if k = "a" then some (0, 4) else none

/- ================= Serial relay (pirate/lib/serial_console.py) ======== -/

/-- The sentinel DONE_MARKER as its byte values. -/
def DONE_MARKER : List Nat := "__PIRATE_DONE__".data.map Char.toNat

/-- The bytes membership test (marker in buf): pat occurs as a contiguous
run somewhere in the haystack. -/
def bytesContain (pat : List Nat) : List Nat → Bool
  | [] => pat.isEmpty
  | b :: bs => pat.isPrefixOf (b :: bs) || bytesContain pat bs

/-- max_buf: the rolling detection buffer bound, marker length + 1024. -/
def maxBuf : Nat := DONE_MARKER.length + 1024

/-- The loop-local state of one stdio() session.  readyCalls counts the
on_ready invocations (the observable effect of calling the callback);
out is everything written to the local output fd, serOut everything
written to the serial device by the loop body. -/
structure RelayState where
  buf : List Nat
  readyFired : Bool
  readyCalls : Nat
  out : List Nat
  serOut : List Nat
  done : Bool
deriving DecidableEq

/-- The state at loop entry. -/
def relayInit : RelayState := ⟨[], false, 0, [], [], false⟩

/-- One wake-up of the select loop, as the read it services: a serial
read returning data (possibly empty), a local-input read returning data
(empty means EOF), or an exception raised by the iteration body. -/
inductive RelayEv where
  | serial (data : List Nat)
  | stdin (data : List Nat)
  | exn

/-- The on_ready block of the loop: if the callback has not fired and one
is set, invoke it; a raising invocation (raises counts the invocations
made so far) is swallowed by the bare except, leaving ready_fired False. -/
def fireReady (hasCb : Bool) (raises : Nat → Bool) (s : RelayState) : RelayState :=
  if !s.readyFired && hasCb then
    if raises s.readyCalls then { s with readyCalls := s.readyCalls + 1 }
    else { s with readyCalls := s.readyCalls + 1, readyFired := true }
  else s

/-- The rolling-buffer bound of the loop: extend then, when the length
exceeds max_buf, delete the oldest excess bytes from the front. -/
def truncBuf (buf : List Nat) : List Nat :=
  if buf.length > maxBuf then buf.drop (buf.length - maxBuf) else buf

/-- The serial branch after a nonempty read and the ready-callback block:
extend and bound the buffer, echo the data to local output, and on seeing
the marker in the buffer write CRLF and leave the loop. -/
def serialUpdate (s : RelayState) (data : List Nat) : RelayState :=
  if bytesContain DONE_MARKER (truncBuf (s.buf ++ data)) then
    { s with buf := truncBuf (s.buf ++ data), out := s.out ++ data ++ [13, 10], done := true }
  else
    { s with buf := truncBuf (s.buf ++ data), out := s.out ++ data }

/-- One iteration of the relay loop body on the read it services. -/
def relayStep (hasCb : Bool) (raises : Nat → Bool) (s : RelayState) : RelayEv → RelayState
  | .serial data =>
    if data = [] then s
    else serialUpdate (fireReady hasCb raises s) data
  | .stdin data =>
    if data = [] then { s with serOut := s.serOut ++ [4], done := true }
    else if 29 ∈ data then { s with done := true }
    else if data = [4] then { s with serOut := s.serOut ++ [4] }
    else { s with serOut := s.serOut ++ data }
  | .exn => s

/-- The while loop over a schedule of reads: stops at the first break
(done) and at the first in-loop exception, which the loop does not catch
(the Bool records whether the loop was left by an exception). -/
def relayLoop (hasCb : Bool) (raises : Nat → Bool) : RelayState → List RelayEv → RelayState × Bool
  | s, [] => (s, false)
  | s, e :: es =>
    if s.done then (s, false)
    else
      match e with
      | .exn => (s, true)
      | e => relayLoop hasCb raises (relayStep hasCb raises s e) es

/-- The loop state at exit, from the initial state. -/
def relayRun (hasCb : Bool) (raises : Nat → Bool) (evs : List RelayEv) : RelayState :=
  (relayLoop hasCb raises relayInit evs).1

/-- What one whole stdio() call did: which teardown actions its finally
block performed, whether an exception is propagating, and the loop state. -/
structure StdioOutcome where
  opened : Bool
  ttyChanged : Bool
  ttyRestored : Bool
  sigInstalled : Bool
  sigRestored : Bool
  serClosed : Bool
  exn : Bool
  final : RelayState
deriving DecidableEq

/-- stdio() end to end.  disableSerial short-circuits before anything is
opened.  Otherwise: created_ser records whether this call opened the
connection (ser argument None); old_tty is captured exactly when
manage_tty; prev_sig is captured when install_sigint_handler and
signal.getsignal returned a handler (hasPrevSig); the loop runs; the
finally block restores the tty if manage_tty and old_tty was captured,
restores the handler if install_sigint_handler and prev_sig is not None,
and closes the connection if created_ser. -/
def stdioRun (disableSerial manageTTY installSig hasPrevSig serProvided hasCb : Bool)
    (raises : Nat → Bool) (evs : List RelayEv) : StdioOutcome :=
  if disableSerial then
    ⟨false, false, false, false, false, false, false, relayInit⟩
  else
    let createdSer := !serProvided
    let oldTTY := manageTTY
    let prevSig := installSig && hasPrevSig
    let r := relayLoop hasCb raises relayInit evs
    { opened := createdSer
      ttyChanged := manageTTY
      ttyRestored := manageTTY && oldTTY
      sigInstalled := installSig
      sigRestored := installSig && prevSig
      serClosed := createdSer
      exn := r.2
      final := r.1 }

/- ===================== Keyboard helper lemmas ========================= -/

/-- Writing 0 at a position already holding 0 leaves the list unchanged. -/
theorem set_zero_of_getD_zero : ∀ (l : List Nat) (i : Nat), l.getD i 1 = 0 → l.set i 0 = l := by
  intro l
  induction l with
  | nil => intro i h; simp only [List.getD_nil] at h; omega
  | cons a t ih =>
    intro i h
    cases i with
    | zero =>
      simp only [List.getD_cons_zero] at h
      simp [List.set, h]
    | succ n =>
      simp only [List.getD_cons_succ] at h
      simp [List.set, ih n h]

/-- Writing byte 0 does not change the bytes at positions 1 and above. -/
theorem getD_set_zero_ge_one : ∀ (l : List Nat) (v i : Nat), 1 ≤ i → (l.set 0 v).getD i 1 = l.getD i 1 := by
  intro l v i hi
  cases l with
  | nil => simp [List.set]
  | cons a t =>
    cases i with
    | zero => omega
    | succ n => simp [List.set, List.getD_cons_succ]

/-- Placing keycode 0x00 when some scanned slot already holds 0 returns
the report unchanged: the first empty slot is overwritten with 0. -/
theorem findSlot_zero_of_mem : ∀ (idxs : List Nat) (report : List Nat),
    (∃ i ∈ idxs, report.getD i 1 = 0) → findSlot report 0 idxs = some report := by
  intro idxs
  induction idxs with
  | nil => rintro report ⟨i, hi, _⟩; cases hi
  | cons j js ih =>
    rintro report ⟨i, hi, hz⟩
    by_cases hj : report.getD j 1 = 0
    · show (if report.getD j 1 = 0 then some (report.set j 0) else findSlot report 0 js) = some report
      rw [if_pos hj, set_zero_of_getD_zero report j hj]
    · show (if report.getD j 1 = 0 then some (report.set j 0) else findSlot report 0 js) = some report
      rw [if_neg hj]
      rcases List.mem_cons.mp hi with rfl | hmem
      · exact absurd hz hj
      · exact ih report ⟨i, hmem, hz⟩

/-- runGroups distributes over append as long as the first part finishes
without an encoder error. -/
theorem runGroups_append_ok (km : Keymap) (d : Bool) : ∀ (xs ys : List String) (ws : List (List Nat)),
    runGroups km d xs = (ws, none) →
    runGroups km d (xs ++ ys) = (ws ++ (runGroups km d ys).1, (runGroups km d ys).2) := by
  intro xs
  induction xs with
  | nil =>
    intro ys ws h
    simp only [runGroups] at h
    cases h
    simp [runGroups]
  | cons g gs ih =>
    intro ys ws h
    cases hg : processKeystroke km g with
    | error e =>
      simp only [runGroups, hg] at h
      simp at h
    | ok rep =>
      simp only [runGroups, hg] at h ⊢
      rw [Prod.mk.injEq] at h
      obtain ⟨h2, h1⟩ := h
      have hgs : runGroups km d gs = ((runGroups km d gs).1, none) := by
        rw [← h1]
      simp only [List.append_eq] at *
      simp only [ih ys (runGroups km d gs).1 hgs]
      rw [← h2, List.append_assoc]

/- ===================== Claims C3, C4, C8, C9, C10 ===================== -/

/-- Claim C3 (amended): for a keystroke group of 2 to 6 keys all present
in the keymap and all with nonzero keycodes, the built report has byte 0
the OR of the modifiers, byte 1 zero, the keycodes at bytes 2..(1+n) in
listed order and the remaining slots zero; a 7-key group whose first six
keys have nonzero keycodes raises report overflow, and an erroring group
is never written to the device. -/
theorem c3_combo_packing :
    (∀ (km : Keymap) (g k1 k2 : String) (m1 c1 m2 c2 : Nat),
        splitOnPlus g = [k1, k2] →
        km k1 = some (m1, c1) → km k2 = some (m2, c2) →
        c1 ≠ 0 → c2 ≠ 0 →
        processKeystroke km g = .ok [m1 ||| m2, 0, c1, c2, 0, 0, 0, 0]) ∧
    (∀ (km : Keymap) (g k1 k2 k3 : String) (m1 c1 m2 c2 m3 c3 : Nat),
        splitOnPlus g = [k1, k2, k3] →
        km k1 = some (m1, c1) → km k2 = some (m2, c2) → km k3 = some (m3, c3) →
        c1 ≠ 0 → c2 ≠ 0 → c3 ≠ 0 →
        processKeystroke km g = .ok [m1 ||| m2 ||| m3, 0, c1, c2, c3, 0, 0, 0]) ∧
    (∀ (km : Keymap) (g k1 k2 k3 k4 : String) (m1 c1 m2 c2 m3 c3 m4 c4 : Nat),
        splitOnPlus g = [k1, k2, k3, k4] →
        km k1 = some (m1, c1) → km k2 = some (m2, c2) → km k3 = some (m3, c3) →
        km k4 = some (m4, c4) →
        c1 ≠ 0 → c2 ≠ 0 → c3 ≠ 0 → c4 ≠ 0 →
        processKeystroke km g = .ok [m1 ||| m2 ||| m3 ||| m4, 0, c1, c2, c3, c4, 0, 0]) ∧
    (∀ (km : Keymap) (g k1 k2 k3 k4 k5 : String) (m1 c1 m2 c2 m3 c3 m4 c4 m5 c5 : Nat),
        splitOnPlus g = [k1, k2, k3, k4, k5] →
        km k1 = some (m1, c1) → km k2 = some (m2, c2) → km k3 = some (m3, c3) →
        km k4 = some (m4, c4) → km k5 = some (m5, c5) →
        c1 ≠ 0 → c2 ≠ 0 → c3 ≠ 0 → c4 ≠ 0 → c5 ≠ 0 →
        processKeystroke km g = .ok [m1 ||| m2 ||| m3 ||| m4 ||| m5, 0, c1, c2, c3, c4, c5, 0]) ∧
    (∀ (km : Keymap) (g k1 k2 k3 k4 k5 k6 : String) (m1 c1 m2 c2 m3 c3 m4 c4 m5 c5 m6 c6 : Nat),
        splitOnPlus g = [k1, k2, k3, k4, k5, k6] →
        km k1 = some (m1, c1) → km k2 = some (m2, c2) → km k3 = some (m3, c3) →
        km k4 = some (m4, c4) → km k5 = some (m5, c5) → km k6 = some (m6, c6) →
        c1 ≠ 0 → c2 ≠ 0 → c3 ≠ 0 → c4 ≠ 0 → c5 ≠ 0 → c6 ≠ 0 →
        processKeystroke km g = .ok [m1 ||| m2 ||| m3 ||| m4 ||| m5 ||| m6, 0, c1, c2, c3, c4, c5, c6]) ∧
    (∀ (km : Keymap) (g k1 k2 k3 k4 k5 k6 k7 : String) (m1 c1 m2 c2 m3 c3 m4 c4 m5 c5 m6 c6 m7 c7 : Nat),
        splitOnPlus g = [k1, k2, k3, k4, k5, k6, k7] →
        km k1 = some (m1, c1) → km k2 = some (m2, c2) → km k3 = some (m3, c3) →
        km k4 = some (m4, c4) → km k5 = some (m5, c5) → km k6 = some (m6, c6) →
        km k7 = some (m7, c7) →
        c1 ≠ 0 → c2 ≠ 0 → c3 ≠ 0 → c4 ≠ 0 → c5 ≠ 0 → c6 ≠ 0 →
        processKeystroke km g = .error .reportOverflow) ∧
    (∀ (km : Keymap) (g : String) (gs : List String) (e : KbError),
        processKeystroke km g = .error e →
        runGroups km false (g :: gs) = ([], some e)) := by
  refine ⟨?_, ?_, ?_, ?_, ?_, ?_, ?_⟩
  · intro km g k1 k2 m1 c1 m2 c2 hs hk1 hk2 hc1 hc2
    unfold processKeystroke
    rw [hs]
    simp only [buildReport, processKey, findSlot, slotRange, List.replicate, List.getD_cons_zero,
      List.getD_cons_succ, List.set, Nat.zero_or, hk1, hk2, hc1, hc2, if_true, if_false,
      ite_true, ite_false]
  · intro km g k1 k2 k3 m1 c1 m2 c2 m3 c3 hs hk1 hk2 hk3 hc1 hc2 hc3
    unfold processKeystroke
    rw [hs]
    simp only [buildReport, processKey, findSlot, slotRange, List.replicate, List.getD_cons_zero,
      List.getD_cons_succ, List.set, Nat.zero_or, hk1, hk2, hk3, hc1, hc2, hc3, if_true, if_false,
      ite_true, ite_false]
  · intro km g k1 k2 k3 k4 m1 c1 m2 c2 m3 c3 m4 c4 hs hk1 hk2 hk3 hk4 hc1 hc2 hc3 hc4
    unfold processKeystroke
    rw [hs]
    simp only [buildReport, processKey, findSlot, slotRange, List.replicate, List.getD_cons_zero,
      List.getD_cons_succ, List.set, Nat.zero_or, hk1, hk2, hk3, hk4, hc1, hc2, hc3, hc4,
      if_true, if_false, ite_true, ite_false]
  · intro km g k1 k2 k3 k4 k5 m1 c1 m2 c2 m3 c3 m4 c4 m5 c5 hs hk1 hk2 hk3 hk4 hk5 hc1 hc2 hc3 hc4 hc5
    unfold processKeystroke
    rw [hs]
    simp only [buildReport, processKey, findSlot, slotRange, List.replicate, List.getD_cons_zero,
      List.getD_cons_succ, List.set, Nat.zero_or, hk1, hk2, hk3, hk4, hk5, hc1, hc2, hc3, hc4,
      hc5, if_true, if_false, ite_true, ite_false]
  · intro km g k1 k2 k3 k4 k5 k6 m1 c1 m2 c2 m3 c3 m4 c4 m5 c5 m6 c6 hs hk1 hk2 hk3 hk4 hk5 hk6 hc1 hc2 hc3 hc4 hc5 hc6
    unfold processKeystroke
    rw [hs]
    simp only [buildReport, processKey, findSlot, slotRange, List.replicate, List.getD_cons_zero,
      List.getD_cons_succ, List.set, Nat.zero_or, hk1, hk2, hk3, hk4, hk5, hk6, hc1, hc2, hc3,
      hc4, hc5, hc6, if_true, if_false, ite_true, ite_false]
  · intro km g k1 k2 k3 k4 k5 k6 k7 m1 c1 m2 c2 m3 c3 m4 c4 m5 c5 m6 c6 m7 c7 hs hk1 hk2 hk3 hk4 hk5 hk6 hk7 hc1 hc2 hc3 hc4 hc5 hc6
    unfold processKeystroke
    rw [hs]
    simp only [buildReport, processKey, findSlot, slotRange, List.replicate, List.getD_cons_zero,
      List.getD_cons_succ, List.set, Nat.zero_or, hk1, hk2, hk3, hk4, hk5, hk6, hk7, hc1, hc2,
      hc3, hc4, hc5, hc6, if_true, if_false, ite_true, ite_false]
  · intro km g gs e h
    simp [runGroups, h]

/-- Claim C3 counterexample: on a keymap where WIN is a pure modifier with
keycode 0x00, the combo WIN+r packs the keycode of r into byte 2 and not
into byte 3 as the in-order packing of the claim predicts, and a 7-key
combo containing WIN builds a report without raising overflow. -/
theorem c3_combo_packing_counterexample :
    processKeystroke kmUS "WIN+r" = .ok [8, 0, 21, 0, 0, 0, 0, 0] ∧
    claimedComboReport [8, 0] [0, 21] = [8, 0, 0, 21, 0, 0, 0, 0] ∧
    [8, 0, 21, 0, 0, 0, 0, 0] ≠ [8, 0, 0, 21, 0, 0, 0, 0] ∧
    (processKeystroke kmUS "WIN+q+w+e+t+y+u").isOk = true :=
  ⟨rfl, rfl, by decide, rfl⟩

/-- Claim C3 witness: the amended packing statement at the concrete combo
q+w of the sample keymap. -/
theorem c3_combo_packing_witness :
    splitOnPlus "q+w" = ["q", "w"] ∧ kmUS "q" = some (0, 20) ∧ kmUS "w" = some (0, 26) ∧
    processKeystroke kmUS "q+w" = .ok [0 ||| 0, 0, 20, 26, 0, 0, 0, 0] :=
  ⟨rfl, rfl, rfl,
    c3_combo_packing.1 kmUS "q+w" "q" "w" 0 20 0 26 rfl rfl rfl (by decide) (by decide)⟩

/-- Claim C10: a key whose keymap entry has keycode 0x00 (a pure modifier
such as WIN), processed while some report byte among 2..7 is still zero,
only ORs its modifier into byte 0 and leaves bytes 1..7 unchanged — it
consumes no keycode slot; consequently a keystroke group of 7 keys does
not necessarily raise report overflow when one of them has keycode 0. -/
theorem c10_pure_modifier_consumes_no_slot :
    (∀ (km : Keymap) (report : List Nat) (key : String) (m : Nat),
        km key = some (m, 0) →
        (∃ i, 2 ≤ i ∧ i < 8 ∧ report.getD i 1 = 0) →
        processKey km report key = .ok (report.set 0 (report.getD 0 0 ||| m))) ∧
    splitOnPlus "WIN+q+w+e+t+y+u" = ["WIN", "q", "w", "e", "t", "y", "u"] ∧
    (processKeystroke kmUS "WIN+q+w+e+t+y+u").isOk = true := by
  refine ⟨?_, rfl, rfl⟩
  rintro km report key m hk ⟨i, h2, h8, hz⟩
  have hz1 : (report.set 0 (report.getD 0 0 ||| m)).getD i 1 = 0 := by
    rw [getD_set_zero_ge_one report _ i (by omega)]
    exact hz
  have hmem : i ∈ slotRange := by
    unfold slotRange
    interval_cases i <;> simp
  simp only [processKey, hk]
  rw [findSlot_zero_of_mem slotRange _ ⟨i, hmem, hz1⟩]

/-- Claim C10 witness: the pure-modifier step at a concrete report with a
free slot, via the main theorem. -/
theorem c10_pure_modifier_consumes_no_slot_witness :
    kmUS "WIN" = some (8, 0) ∧
    processKey kmUS [0, 0, 4, 0, 0, 0, 0, 0] "WIN" =
      .ok ([0, 0, 4, 0, 0, 0, 0, 0].set 0 ([0, 0, 4, 0, 0, 0, 0, 0].getD 0 0 ||| 8)) :=
  ⟨rfl, c10_pure_modifier_consumes_no_slot.1 kmUS [0, 0, 4, 0, 0, 0, 0, 0] "WIN" 8 rfl
    ⟨3, by decide, by decide, rfl⟩⟩

/-- Claim C8: when the keystroke groups parsed from the text are a prefix
of successfully processed groups, then a group whose first missing key is
k, send aborts with the unknown-key error naming k, the device frames are
exactly those of the successful prefix (nothing written for the failing
group or any later group); looking up a key absent from the keymap is
what produces that error. -/
theorem c8_unknown_key_aborts :
    (∀ (km : Keymap) (report : List Nat) (k : String),
        km k = none → processKey km report k = .error (.unknownKey k)) ∧
    (∀ (km : Keymap) (text : String) (pre post : List String) (g : String)
        (ws : List (List Nat)) (k : String),
        scanKeystrokes text.data = pre ++ g :: post →
        runGroups km false pre = (ws, none) →
        processKeystroke km g = .error (.unknownKey k) →
        sendRun km false text = (ws, some (.unknownKey k))) := by
  constructor
  · intro km report k h
    simp [processKey, h]
  · intro km text pre post g ws k hscan hpre herr
    unfold sendRun
    rw [hscan, runGroups_append_ok km false pre (g :: post) ws hpre]
    simp [runGroups, herr]

/-- Claim C8 witness: sending ab against a keymap holding only a delivers
the report and release frame of a, then aborts naming b. -/
theorem c8_unknown_key_aborts_witness :
    sendRun kmA false "ab" = ([[0, 0, 4, 0, 0, 0, 0, 0], zeroReport], some (.unknownKey "b")) :=
  c8_unknown_key_aborts.2 kmA "ab" ["a"] [] "b" [[0, 0, 4, 0, 0, 0, 0, 0], zeroReport] "b"
    rfl rfl rfl

/-- Claim C9: the inter-keystroke delay of send equals 60 / (wpm * 5)
seconds for the call-time override (else the instance default) clamped to
the inclusive range 10..1000; wpm 1 clamps to 10 giving 1.2 seconds, wpm
5000 clamps to 1000 giving 0.012 seconds. -/
theorem c9_wpm_delay (instWpm : Int) (callWpm : Option Int) :
    sendDelay instWpm callWpm = clampedDelaySpec (effectiveWpm instWpm callWpm) ∧
    sendDelay instWpm (some 1) = (1.2 : Rat) ∧
    sendDelay instWpm (some 5000) = (0.012 : Rat) := by
  refine ⟨?_, ?_, ?_⟩
  · simp only [sendDelay, wpmToDelay, clampedDelaySpec]
    have h : (if effectiveWpm instWpm callWpm < 10 then (10 : Int)
        else if effectiveWpm instWpm callWpm > 1000 then 1000
        else effectiveWpm instWpm callWpm) =
        max 10 (min (effectiveWpm instWpm callWpm) 1000) := by
      split_ifs <;> omega
    rw [h]
  · norm_num [sendDelay, wpmToDelay, effectiveWpm]
  · norm_num [sendDelay, wpmToDelay, effectiveWpm]

/-- Claim C4: send on the text ab{KEY:WIN+r}c over a keymap defining a, b,
c, WIN and r parses exactly the 4 keystroke groups a, b, WIN+r, c in that
order, each written to the device as its HID report followed by the
all-zero release frame — 8 device writes in total. -/
theorem c4_roundtrip (km : Keymap) (ma ca mb cb mc cc mw cw mr cr : Nat)
    (ha : km "a" = some (ma, ca)) (hb : km "b" = some (mb, cb)) (hc : km "c" = some (mc, cc))
    (hw : km "WIN" = some (mw, cw)) (hr : km "r" = some (mr, cr)) :
    scanKeystrokes "ab\x7bKEY:WIN+r\x7dc".data = ["a", "b", "WIN+r", "c"] ∧
    ∃ r1 r2 r3 r4,
      processKeystroke km "a" = .ok r1 ∧ processKeystroke km "b" = .ok r2 ∧
      processKeystroke km "WIN+r" = .ok r3 ∧ processKeystroke km "c" = .ok r4 ∧
      sendRun km false "ab\x7bKEY:WIN+r\x7dc" =
        ([r1, zeroReport, r2, zeroReport, r3, zeroReport, r4, zeroReport], none) ∧
      (sendRun km false "ab\x7bKEY:WIN+r\x7dc").1.length = 8 := by
  have hscan : scanKeystrokes "ab\x7bKEY:WIN+r\x7dc".data = ["a", "b", "WIN+r", "c"] := rfl
  have hra : processKeystroke km "a" = .ok [ma, 0, ca, 0, 0, 0, 0, 0] := by
    have hs : splitOnPlus "a" = ["a"] := rfl
    unfold processKeystroke
    rw [hs]
    simp only [buildReport, processKey, findSlot, slotRange, List.replicate, List.getD_cons_zero,
      List.getD_cons_succ, List.set, Nat.zero_or, ha, ite_true]
  have hrb : processKeystroke km "b" = .ok [mb, 0, cb, 0, 0, 0, 0, 0] := by
    have hs : splitOnPlus "b" = ["b"] := rfl
    unfold processKeystroke
    rw [hs]
    simp only [buildReport, processKey, findSlot, slotRange, List.replicate, List.getD_cons_zero,
      List.getD_cons_succ, List.set, Nat.zero_or, hb, ite_true]
  have hrc : processKeystroke km "c" = .ok [mc, 0, cc, 0, 0, 0, 0, 0] := by
    have hs : splitOnPlus "c" = ["c"] := rfl
    unfold processKeystroke
    rw [hs]
    simp only [buildReport, processKey, findSlot, slotRange, List.replicate, List.getD_cons_zero,
      List.getD_cons_succ, List.set, Nat.zero_or, hc, ite_true]
  refine ⟨hscan, ?_⟩
  have hs3 : splitOnPlus "WIN+r" = ["WIN", "r"] := rfl
  by_cases hcw : cw = 0
  · subst hcw
    have hr3 : processKeystroke km "WIN+r" = .ok [mw ||| mr, 0, cr, 0, 0, 0, 0, 0] := by
      unfold processKeystroke
      rw [hs3]
      simp only [buildReport, processKey, findSlot, slotRange, List.replicate, List.getD_cons_zero,
        List.getD_cons_succ, List.set, Nat.zero_or, hw, hr, ite_true]
    refine ⟨_, _, _, _, hra, hrb, hr3, hrc, ?_, ?_⟩
    · unfold sendRun
      rw [hscan]
      simp only [runGroups, hra, hrb, hr3, hrc, writeReport, ite_false, Bool.false_eq_true,
        if_false, List.cons_append, List.nil_append]
    · unfold sendRun
      rw [hscan]
      simp only [runGroups, hra, hrb, hr3, hrc, writeReport, ite_false, Bool.false_eq_true,
        if_false, List.cons_append, List.nil_append, List.length_cons, List.length_nil]
  · have hr3 : processKeystroke km "WIN+r" = .ok [mw ||| mr, 0, cw, cr, 0, 0, 0, 0] := by
      unfold processKeystroke
      rw [hs3]
      simp only [buildReport, processKey, findSlot, slotRange, List.replicate, List.getD_cons_zero,
        List.getD_cons_succ, List.set, Nat.zero_or, hw, hr, hcw, ite_true, ite_false, if_false]
    refine ⟨_, _, _, _, hra, hrb, hr3, hrc, ?_, ?_⟩
    · unfold sendRun
      rw [hscan]
      simp only [runGroups, hra, hrb, hr3, hrc, writeReport, ite_false, Bool.false_eq_true,
        if_false, List.cons_append, List.nil_append]
    · unfold sendRun
      rw [hscan]
      simp only [runGroups, hra, hrb, hr3, hrc, writeReport, ite_false, Bool.false_eq_true,
        if_false, List.cons_append, List.nil_append, List.length_cons, List.length_nil]

/-- Claim C4 witness: the round trip at the sample keymap, all hypotheses
discharged by computation. -/
theorem c4_roundtrip_witness :
    kmUS "a" = some (0, 4) ∧ kmUS "b" = some (0, 5) ∧ kmUS "c" = some (0, 6) ∧
    kmUS "WIN" = some (8, 0) ∧ kmUS "r" = some (0, 21) ∧
    (scanKeystrokes "ab\x7bKEY:WIN+r\x7dc".data = ["a", "b", "WIN+r", "c"] ∧
     ∃ r1 r2 r3 r4,
       processKeystroke kmUS "a" = .ok r1 ∧ processKeystroke kmUS "b" = .ok r2 ∧
       processKeystroke kmUS "WIN+r" = .ok r3 ∧ processKeystroke kmUS "c" = .ok r4 ∧
       sendRun kmUS false "ab\x7bKEY:WIN+r\x7dc" =
         ([r1, zeroReport, r2, zeroReport, r3, zeroReport, r4, zeroReport], none) ∧
       (sendRun kmUS false "ab\x7bKEY:WIN+r\x7dc").1.length = 8) :=
  ⟨rfl, rfl, rfl, rfl, rfl, c4_roundtrip kmUS 0 4 0 5 0 6 8 0 0 21 rfl rfl rfl rfl rfl⟩

/- ===================== Relay helper lemmas ============================ -/

/-- The bounded buffer never exceeds max_buf in length. -/
theorem truncBuf_length (b : List Nat) : (truncBuf b).length = min b.length maxBuf := by
  unfold truncBuf
  split
  · rw [List.length_drop]
    omega
  · omega

/-- The bounded buffer is a suffix of the unbounded one: only the oldest
bytes are discarded. -/
theorem truncBuf_suffix (b : List Nat) : (truncBuf b) <:+ b := by
  unfold truncBuf
  split
  · exact List.drop_suffix _ _
  · exact List.suffix_refl _

theorem fireReady_buf (h : Bool) (f : Nat → Bool) (s : RelayState) : (fireReady h f s).buf = s.buf := by
  unfold fireReady
  split
  · split <;> rfl
  · rfl

theorem fireReady_out (h : Bool) (f : Nat → Bool) (s : RelayState) : (fireReady h f s).out = s.out := by
  unfold fireReady
  split
  · split <;> rfl
  · rfl

theorem fireReady_serOut (h : Bool) (f : Nat → Bool) (s : RelayState) : (fireReady h f s).serOut = s.serOut := by
  unfold fireReady
  split
  · split <;> rfl
  · rfl

theorem fireReady_done (h : Bool) (f : Nat → Bool) (s : RelayState) : (fireReady h f s).done = s.done := by
  unfold fireReady
  split
  · split <;> rfl
  · rfl

theorem serialUpdate_buf (s : RelayState) (data : List Nat) :
    (serialUpdate s data).buf = truncBuf (s.buf ++ data) := by
  unfold serialUpdate
  split <;> rfl

theorem serialUpdate_out (s : RelayState) (data : List Nat) :
    (serialUpdate s data).out =
      if bytesContain DONE_MARKER (truncBuf (s.buf ++ data)) then s.out ++ data ++ [13, 10]
      else s.out ++ data := by
  unfold serialUpdate
  split <;> simp_all

theorem serialUpdate_serOut (s : RelayState) (data : List Nat) :
    (serialUpdate s data).serOut = s.serOut := by
  unfold serialUpdate
  split <;> rfl

theorem serialUpdate_done (s : RelayState) (data : List Nat) :
    (serialUpdate s data).done =
      (bytesContain DONE_MARKER (truncBuf (s.buf ++ data)) || s.done) := by
  unfold serialUpdate
  split <;> simp_all

theorem serialUpdate_readyFired (s : RelayState) (data : List Nat) :
    (serialUpdate s data).readyFired = s.readyFired := by
  unfold serialUpdate
  split <;> rfl

theorem serialUpdate_readyCalls (s : RelayState) (data : List Nat) :
    (serialUpdate s data).readyCalls = s.readyCalls := by
  unfold serialUpdate
  split <;> rfl

/-- After any loop iteration the buffer either is unchanged or satisfies
the bound. -/
theorem relayStep_buf_le (hasCb : Bool) (raises : Nat → Bool) (s : RelayState) (e : RelayEv)
    (hs : s.buf.length ≤ maxBuf) : (relayStep hasCb raises s e).buf.length ≤ maxBuf := by
  cases e with
  | serial data =>
    by_cases hd : data = []
    · simp [relayStep, hd, hs]
    · simp only [relayStep, hd, if_false, ite_false]
      rw [serialUpdate_buf, truncBuf_length]
      omega
  | stdin data =>
    simp only [relayStep]
    split_ifs <;> exact hs
  | exn => exact hs

/-- Once the loop has broken, later scheduled reads are not consumed. -/
theorem relayLoop_done (hasCb : Bool) (raises : Nat → Bool) :
    ∀ (evs : List RelayEv) (s : RelayState), s.done = true →
      relayLoop hasCb raises s evs = (s, false) := by
  intro evs
  cases evs with
  | nil => intro s _; rfl
  | cons e es =>
    intro s h
    simp [relayLoop, h]

/-- The loop invariant for the buffer bound. -/
theorem relayLoop_buf_le (hasCb : Bool) (raises : Nat → Bool) :
    ∀ (evs : List RelayEv) (s : RelayState), s.buf.length ≤ maxBuf →
      (relayLoop hasCb raises s evs).1.buf.length ≤ maxBuf := by
  intro evs
  induction evs with
  | nil => intro s hs; exact hs
  | cons e es ih =>
    intro s hs
    by_cases hdone : s.done = true
    · rw [relayLoop_done hasCb raises (e :: es) s hdone]
      exact hs
    · simp only [relayLoop, hdone, if_false, ite_false]
      cases e with
      | exn => exact hs
      | serial data => exact ih _ (relayStep_buf_le hasCb raises s (.serial data) hs)
      | stdin data => exact ih _ (relayStep_buf_le hasCb raises s (.stdin data) hs)

/-- Whether the loop body relays, detects the marker or breaks does not
depend on the callback raising or not: the two runs agree on buffer,
outputs and loop exit after every single step. -/
theorem relayStep_cb (hasCb : Bool) (f g : Nat → Bool) (s t : RelayState) (e : RelayEv)
    (hb : s.buf = t.buf) (ho : s.out = t.out) (hs : s.serOut = t.serOut) (hd : s.done = t.done) :
    (relayStep hasCb f s e).buf = (relayStep hasCb g t e).buf ∧
    (relayStep hasCb f s e).out = (relayStep hasCb g t e).out ∧
    (relayStep hasCb f s e).serOut = (relayStep hasCb g t e).serOut ∧
    (relayStep hasCb f s e).done = (relayStep hasCb g t e).done := by
  cases e with
  | serial data =>
    by_cases hdata : data = []
    · simp [relayStep, hdata, hb, ho, hs, hd]
    · simp only [relayStep, hdata, if_false, ite_false]
      refine ⟨?_, ?_, ?_, ?_⟩
      · rw [serialUpdate_buf, serialUpdate_buf, fireReady_buf, fireReady_buf, hb]
      · rw [serialUpdate_out, serialUpdate_out, fireReady_buf, fireReady_buf, fireReady_out,
          fireReady_out, hb, ho]
      · rw [serialUpdate_serOut, serialUpdate_serOut, fireReady_serOut, fireReady_serOut, hs]
      · rw [serialUpdate_done, serialUpdate_done, fireReady_buf, fireReady_buf, fireReady_done,
          fireReady_done, hb, hd]
  | stdin data =>
    simp only [relayStep]
    split_ifs <;> simp [hb, ho, hs, hd]
  | exn => exact ⟨hb, ho, hs, hd⟩

/-- The observable behavior of a whole session does not depend on the
callback raising or not. -/
theorem relayLoop_cb (hasCb : Bool) (f g : Nat → Bool) :
    ∀ (evs : List RelayEv) (s t : RelayState),
      s.buf = t.buf → s.out = t.out → s.serOut = t.serOut → s.done = t.done →
      (relayLoop hasCb f s evs).1.buf = (relayLoop hasCb g t evs).1.buf ∧
      (relayLoop hasCb f s evs).1.out = (relayLoop hasCb g t evs).1.out ∧
      (relayLoop hasCb f s evs).1.serOut = (relayLoop hasCb g t evs).1.serOut ∧
      (relayLoop hasCb f s evs).1.done = (relayLoop hasCb g t evs).1.done ∧
      (relayLoop hasCb f s evs).2 = (relayLoop hasCb g t evs).2 := by
  intro evs
  induction evs with
  | nil => intro s t hb ho hs hd; exact ⟨hb, ho, hs, hd, rfl⟩
  | cons e es ih =>
    intro s t hb ho hs hd
    by_cases hdone : s.done = true
    · have hdone2 : t.done = true := hd ▸ hdone
      rw [relayLoop_done hasCb f (e :: es) s hdone, relayLoop_done hasCb g (e :: es) t hdone2]
      exact ⟨hb, ho, hs, hd, rfl⟩
    · have hdone2 : ¬t.done = true := by rw [← hd]; exact hdone
      simp only [relayLoop, hdone, hdone2, if_false, ite_false]
      cases e with
      | exn => exact ⟨hb, ho, hs, hd, rfl⟩
      | serial data =>
        obtain ⟨b, o, so, d⟩ := relayStep_cb hasCb f g s t (.serial data) hb ho hs hd
        exact ih _ _ b o so d
      | stdin data =>
        obtain ⟨b, o, so, d⟩ := relayStep_cb hasCb f g s t (.stdin data) hb ho hs hd
        exact ih _ _ b o so d

/-- With a callback that never raises, the ready block either is skipped
or increments the count once and sets ready_fired. -/
theorem fireReady_noraise (hasCb : Bool) (s : RelayState) :
    fireReady hasCb (fun _ => false) s =
      if !s.readyFired && hasCb then { s with readyCalls := s.readyCalls + 1, readyFired := true }
      else s := by
  unfold fireReady
  split <;> simp

/-- The single-step invariant for the at-most-one-successful-invocation
property: the count stays at most 1 and a count of 1 means fired. -/
theorem relayStep_ready (hasCb : Bool) (s : RelayState) (e : RelayEv)
    (h1 : s.readyCalls ≤ 1) (h2 : s.readyCalls = 1 → s.readyFired = true) :
    (relayStep hasCb (fun _ => false) s e).readyCalls ≤ 1 ∧
    ((relayStep hasCb (fun _ => false) s e).readyCalls = 1 →
      (relayStep hasCb (fun _ => false) s e).readyFired = true) := by
  cases e with
  | exn => exact ⟨h1, h2⟩
  | stdin data =>
    constructor <;> simp only [relayStep] <;> split_ifs <;> simp_all
  | serial data =>
    by_cases hdata : data = []
    · have hstep : relayStep hasCb (fun _ => false) s (.serial data) = s := by
        simp [relayStep, hdata]
      rw [hstep]
      exact ⟨h1, h2⟩
    · simp only [relayStep, hdata, if_false, ite_false]
      rw [serialUpdate_readyCalls, serialUpdate_readyFired, fireReady_noraise]
      split_ifs with hfire
      · simp only [Bool.and_eq_true, Bool.not_eq_true'] at hfire
        have h0 : s.readyCalls = 0 := by
          by_contra hne
          have hc1 : s.readyCalls = 1 := by omega
          have hft := h2 hc1
          rw [hfire.1] at hft
          exact Bool.noConfusion hft
        constructor
        · show s.readyCalls + 1 ≤ 1
          omega
        · intro _
          rfl
      · exact ⟨h1, h2⟩

/-- With a callback that never raises, ready_fired is set at the first
invocation and the callback is never invoked again: the invocation count
never passes 1. -/
theorem relayLoop_ready (hasCb : Bool) :
    ∀ (evs : List RelayEv) (s : RelayState),
      s.readyCalls ≤ 1 → (s.readyCalls = 1 → s.readyFired = true) →
      (relayLoop hasCb (fun _ => false) s evs).1.readyCalls ≤ 1 := by
  intro evs
  induction evs with
  | nil => intro s h1 _; exact h1
  | cons e es ih =>
    intro s h1 h2
    by_cases hdone : s.done = true
    · rw [relayLoop_done hasCb (fun _ => false) (e :: es) s hdone]
      exact h1
    · simp only [relayLoop, hdone, if_false, ite_false]
      cases e with
      | exn => exact h1
      | serial data =>
        obtain ⟨g1, g2⟩ := relayStep_ready hasCb s (.serial data) h1 h2
        exact ih _ g1 g2
      | stdin data =>
        obtain ⟨g1, g2⟩ := relayStep_ready hasCb s (.stdin data) h1 h2
        exact ih _ g1 g2

/-- A loop over a split schedule runs the first part, then continues from
its final state, provided the first part did not end by an exception. -/
theorem relayLoop_append (hasCb : Bool) (raises : Nat → Bool) :
    ∀ (xs ys : List RelayEv) (s : RelayState),
      (relayLoop hasCb raises s xs).2 = false →
      relayLoop hasCb raises s (xs ++ ys) =
        relayLoop hasCb raises (relayLoop hasCb raises s xs).1 ys := by
  intro xs
  induction xs with
  | nil => intro ys s _; rfl
  | cons e es ih =>
    intro ys s hnoexn
    by_cases hdone : s.done = true
    · rw [List.cons_append, relayLoop_done hasCb raises (e :: es) s hdone,
        relayLoop_done hasCb raises (e :: (es ++ ys)) s hdone]
      exact (relayLoop_done hasCb raises ys s hdone).symm
    · cases e with
      | exn =>
        simp only [relayLoop, hdone, if_false, ite_false] at hnoexn
        simp at hnoexn
      | serial data =>
        simp only [List.cons_append, relayLoop, hdone, if_false, ite_false] at hnoexn ⊢
        exact ih ys _ hnoexn
      | stdin data =>
        simp only [List.cons_append, relayLoop, hdone, if_false, ite_false] at hnoexn ⊢
        exact ih ys _ hnoexn

/- ===================== Claims C1, C2, C5, C6, C7 ====================== -/

/-- Claim C1 (amended): a raising ready callback is swallowed — it never
changes what the relay writes or when the loop exits — but it is the
successful invocation that is one-shot: with a callback that never
raises the callback runs at most once per session, while a raising
callback leaves ready_fired unset and is invoked again on the next data
arrival. -/
theorem c1_ready_callback :
    (∀ (hasCb : Bool) (f g : Nat → Bool) (evs : List RelayEv),
        (relayRun hasCb f evs).buf = (relayRun hasCb g evs).buf ∧
        (relayRun hasCb f evs).out = (relayRun hasCb g evs).out ∧
        (relayRun hasCb f evs).serOut = (relayRun hasCb g evs).serOut ∧
        (relayRun hasCb f evs).done = (relayRun hasCb g evs).done ∧
        (relayLoop hasCb f relayInit evs).2 = (relayLoop hasCb g relayInit evs).2) ∧
    (∀ (hasCb : Bool) (evs : List RelayEv),
        (relayRun hasCb (fun _ => false) evs).readyCalls ≤ 1) := by
  constructor
  · intro hasCb f g evs
    exact relayLoop_cb hasCb f g evs relayInit relayInit rfl rfl rfl rfl
  · intro hasCb evs
    exact relayLoop_ready hasCb evs relayInit (by simp [relayInit]) (by simp [relayInit])

/-- Claim C1 counterexample: an always-raising callback is invoked twice
in a session with two serial data arrivals, refuting invoked at most
once per session. -/
theorem c1_ready_callback_counterexample :
    (relayRun true (fun _ => true) [.serial [65], .serial [66]]).readyCalls = 2 := rfl

/-- Claim C2: at every point of every session the rolling detection
buffer holds at most marker length + 1024 bytes, and each serial read
only ever discards the oldest bytes (the new buffer is a suffix of the
old buffer extended by the newly received data). -/
theorem c2_buffer_bound :
    (∀ (hasCb : Bool) (raises : Nat → Bool) (evs : List RelayEv),
        (relayRun hasCb raises evs).buf.length ≤ maxBuf) ∧
    (∀ (hasCb : Bool) (raises : Nat → Bool) (s : RelayState) (d : List Nat),
        (relayStep hasCb raises s (.serial d)).buf <:+ s.buf ++ d) := by
  constructor
  · intro hasCb raises evs
    exact relayLoop_buf_le hasCb raises evs relayInit (by simp [relayInit])
  · intro hasCb raises s d
    by_cases hd : d = []
    · subst hd
      have hstep : relayStep hasCb raises s (.serial []) = s := by simp [relayStep]
      rw [hstep, List.append_nil]
    · simp only [relayStep, hd, if_false, ite_false]
      rw [serialUpdate_buf, fireReady_buf]
      exact truncBuf_suffix _

/-- Claim C5: a marker split across two serial reads is still detected:
the relay echoes both chunks, writes the trailing CRLF exactly once, and
leaves the loop as the normal exit (a later scheduled local read is
never consumed). -/
theorem c5_split_marker :
    relayRun false (fun _ => false)
        [.serial ("__PIRATE_".data.map Char.toNat), .serial ("DONE__".data.map Char.toNat),
          .stdin [120]] =
      ⟨DONE_MARKER, false, 0, DONE_MARKER ++ [13, 10], [], true⟩ := rfl

/-- Claim C6: whenever the loop of a non-disabled stdio() call ends — by
marker, detach, EOF, or an in-loop exception — the finally block restores
the terminal exactly when it changed it, restores the prior SIGINT
handler exactly when it installed the forwarder over a retrievable prior
handler, and closes the serial connection exactly when this call opened
it; a disabled call opens, changes, restores and closes nothing. -/
theorem c6_teardown :
    (∀ (manageTTY installSig hasPrevSig serProvided hasCb : Bool) (raises : Nat → Bool)
        (evs : List RelayEv),
        ((stdioRun false manageTTY installSig hasPrevSig serProvided hasCb raises evs).final.done = true ∨
          (stdioRun false manageTTY installSig hasPrevSig serProvided hasCb raises evs).exn = true) →
        (stdioRun false manageTTY installSig hasPrevSig serProvided hasCb raises evs).ttyRestored = manageTTY ∧
        (stdioRun false manageTTY installSig hasPrevSig serProvided hasCb raises evs).sigRestored = (installSig && hasPrevSig) ∧
        (stdioRun false manageTTY installSig hasPrevSig serProvided hasCb raises evs).serClosed = (stdioRun false manageTTY installSig hasPrevSig serProvided hasCb raises evs).opened ∧
        (stdioRun false manageTTY installSig hasPrevSig serProvided hasCb raises evs).opened = !serProvided) ∧
    (∀ (manageTTY installSig hasPrevSig serProvided hasCb : Bool) (raises : Nat → Bool)
        (evs : List RelayEv),
        (stdioRun true manageTTY installSig hasPrevSig serProvided hasCb raises evs).opened = false ∧
        (stdioRun true manageTTY installSig hasPrevSig serProvided hasCb raises evs).ttyChanged = false ∧
        (stdioRun true manageTTY installSig hasPrevSig serProvided hasCb raises evs).serClosed = false) := by
  constructor
  · intro manageTTY installSig hasPrevSig serProvided hasCb raises evs _
    refine ⟨?_, ?_, ?_, ?_⟩ <;>
      simp [stdioRun, Bool.and_self, ← Bool.and_assoc]
  · intro manageTTY installSig hasPrevSig serProvided hasCb raises evs
    refine ⟨rfl, rfl, rfl⟩

/-- Claim C6 witness: the teardown conclusions at a session ended by
local EOF. -/
theorem c6_teardown_witness :
    (stdioRun false true true true false false (fun _ => false) [.stdin []]).ttyRestored = true ∧
    (stdioRun false true true true false false (fun _ => false) [.stdin []]).sigRestored = (true && true) ∧
    (stdioRun false true true true false false (fun _ => false) [.stdin []]).serClosed =
      (stdioRun false true true true false false (fun _ => false) [.stdin []]).opened ∧
    (stdioRun false true true true false false (fun _ => false) [.stdin []]).opened = !false :=
  c6_teardown.1 true true true false false (fun _ => false) [.stdin []] (Or.inl rfl)

/-- Claim C7 (amended): a local chunk containing 0x1D ends the loop at
once: nothing of that chunk is forwarded, the detach itself writes no
byte to serial — in particular no 0x04 — and no later read is consumed.
A 0x04 may still have been written to serial earlier in the session by a
lone Ctrl-D or a local EOF. -/
theorem c7_detach (hasCb : Bool) (raises : Nat → Bool) (pre post : List RelayEv) (d : List Nat)
    (s : RelayState)
    (hpre : relayLoop hasCb raises relayInit pre = (s, false))
    (hdone : s.done = false)
    (hd : 29 ∈ d) :
    relayLoop hasCb raises relayInit (pre ++ .stdin d :: post) = ({ s with done := true }, false) := by
  have h2 : (relayLoop hasCb raises relayInit pre).2 = false := by rw [hpre]
  rw [relayLoop_append hasCb raises pre (.stdin d :: post) relayInit h2, hpre]
  have hstep : relayStep hasCb raises s (.stdin d) = { s with done := true } := by
    have hne : d ≠ [] := List.ne_nil_of_mem hd
    simp [relayStep, hne, hd]
  have hdone2 : ¬s.done = true := by simp [hdone]
  simp only [relayLoop, hdone2, if_false, ite_false]
  rw [hstep]
  exact relayLoop_done hasCb raises post _ rfl

/-- Claim C7 counterexample: a session whose first chunk is a lone Ctrl-D
and whose second chunk contains 0x1D detaches, yet a 0x04 was written to
serial in that session — the claim that no 0x04 is ever written in a
session with a detach chunk is false. -/
theorem c7_detach_counterexample :
    (29 ∈ [(29 : Nat)]) ∧
    (relayRun false (fun _ => false) [.stdin [4], .stdin [29]]).done = true ∧
    (4 : Nat) ∈ (relayRun false (fun _ => false) [.stdin [4], .stdin [29]]).serOut :=
  ⟨by decide, rfl, by decide⟩

/-- Claim C7 witness: the detach step after a lone Ctrl-D, via the main
theorem. -/
theorem c7_detach_witness :
    relayLoop false (fun _ => false) relayInit
        ([RelayEv.stdin [4]] ++ RelayEv.stdin [29] :: [RelayEv.stdin [7, 8]]) =
      (⟨[], false, 0, [], [4], true⟩, false) :=
  c7_detach false (fun _ => false) [.stdin [4]] [.stdin [7, 8]] [29] ⟨[], false, 0, [], [4], false⟩
    rfl rfl (by decide)
